import Mathlib

/-!
Verification of the go-subsonic client core (client.go): salted credential
derivation, authenticated Request building, response envelope decoding, and
the Authenticate/Request/Get/Ping facade.

Shallow embedding conventions:
- machine words are `Nat` reduced modulo `2^32` where Go overflows;
- the HTTP transport (`http.Client.Do` plus the body read) is an oracle
  function passed to each operation;
- `rand.Intn` is an oracle stream `rng : Nat → Nat` (reduced mod 62 like
  `rand.Intn(len(corpus))` guarantees);
- Go strings are UTF-8: hashing operates on the UTF-8 bytes of the string,
  encoded by `strBytes` below.
-/

namespace Subsonic

/-! ### UTF-8 byte encoding of strings (Go `[]byte(s)` / `io.WriteString`) -/

def utf8Char (c : Char) : List Nat :=
  let n := c.toNat
  if n < 0x80 then [n]
  else if n < 0x800 then
    [0xC0 ||| (n >>> 6), 0x80 ||| (n &&& 0x3F)]
  else if n < 0x10000 then
    [0xE0 ||| (n >>> 12), 0x80 ||| ((n >>> 6) &&& 0x3F), 0x80 ||| (n &&& 0x3F)]
  else
    [0xF0 ||| (n >>> 18), 0x80 ||| ((n >>> 12) &&& 0x3F),
     0x80 ||| ((n >>> 6) &&& 0x3F), 0x80 ||| (n &&& 0x3F)]

def strBytes (s : String) : List Nat :=
  s.data.flatMap utf8Char

/-! ### MD5 (crypto/md5), on byte lists, words as `Nat` mod `2^32` -/

def M32 : Nat := 4294967296

def add32 (a b : Nat) : Nat := (a + b) % M32

def rotl32 (x s : Nat) : Nat :=
  ((x <<< s) % M32) ||| (x >>> (32 - s))

def md5K : List Nat :=
  [0xd76aa478, 0xe8c7b756, 0x242070db, 0xc1bdceee,
   0xf57c0faf, 0x4787c62a, 0xa8304613, 0xfd469501,
   0x698098d8, 0x8b44f7af, 0xffff5bb1, 0x895cd7be,
   0x6b901122, 0xfd987193, 0xa679438e, 0x49b40821,
   0xf61e2562, 0xc040b340, 0x265e5a51, 0xe9b6c7aa,
   0xd62f105d, 0x02441453, 0xd8a1e681, 0xe7d3fbc8,
   0x21e1cde6, 0xc33707d6, 0xf4d50d87, 0x455a14ed,
   0xa9e3e905, 0xfcefa3f8, 0x676f02d9, 0x8d2a4c8a,
   0xfffa3942, 0x8771f681, 0x6d9d6122, 0xfde5380c,
   0xa4beea44, 0x4bdecfa9, 0xf6bb4b60, 0xbebfbc70,
   0x289b7ec6, 0xeaa127fa, 0xd4ef3085, 0x04881d05,
   0xd9d4d039, 0xe6db99e5, 0x1fa27cf8, 0xc4ac5665,
   0xf4292244, 0x432aff97, 0xab9423a7, 0xfc93a039,
   0x655b59c3, 0x8f0ccc92, 0xffeff47d, 0x85845dd1,
   0x6fa87e4f, 0xfe2ce6e0, 0xa3014314, 0x4e0811a1,
   0xf7537e82, 0xbd3af235, 0x2ad7d2bb, 0xeb86d391]

def md5S : List Nat :=
  [7, 12, 17, 22, 7, 12, 17, 22, 7, 12, 17, 22, 7, 12, 17, 22,
   5, 9, 14, 20, 5, 9, 14, 20, 5, 9, 14, 20, 5, 9, 14, 20,
   4, 11, 16, 23, 4, 11, 16, 23, 4, 11, 16, 23, 4, 11, 16, 23,
   6, 10, 15, 21, 6, 10, 15, 21, 6, 10, 15, 21, 6, 10, 15, 21]

structure MD5State where
  a : Nat
  b : Nat
  c : Nat
  d : Nat
deriving Repr, DecidableEq

def md5Init : MD5State := ⟨0x67452301, 0xefcdab89, 0x98badcfe, 0x10325476⟩

def leWord (block : List Nat) (g : Nat) : Nat :=
  block.getD (4 * g) 0 + 256 * block.getD (4 * g + 1) 0 +
    65536 * block.getD (4 * g + 2) 0 + 16777216 * block.getD (4 * g + 3) 0

def md5Round (block : List Nat) (st : MD5State) (i : Nat) : MD5State :=
  let b := st.b
  let c := st.c
  let d := st.d
  let fg : Nat × Nat :=
    if i < 16 then ((b &&& c) ||| ((b ^^^ 0xffffffff) &&& d), i)
    else if i < 32 then ((d &&& b) ||| ((d ^^^ 0xffffffff) &&& c), (5 * i + 1) % 16)
    else if i < 48 then (b ^^^ c ^^^ d, (3 * i + 5) % 16)
    else (c ^^^ (b ||| (d ^^^ 0xffffffff)), (7 * i) % 16)
  let tmp := (fg.1 + st.a + md5K.getD i 0 + leWord block fg.2) % M32
  ⟨d, add32 b (rotl32 tmp (md5S.getD i 0)), b, c⟩

def md5Block (st : MD5State) (block : List Nat) : MD5State :=
  let r := (List.range 64).foldl (md5Round block) st
  ⟨add32 st.a r.a, add32 st.b r.b, add32 st.c r.c, add32 st.d r.d⟩

def leBytes (n count : Nat) : List Nat :=
  (List.range count).map (fun k => n / 256 ^ k % 256)

def md5Pad (msg : List Nat) : List Nat :=
  let len := msg.length
  let zeros := (119 - len % 64) % 64
  msg ++ [0x80] ++ List.replicate zeros 0 ++ leBytes (len * 8) 8

def chunk64 (l : List Nat) : List (List Nat) :=
  if h : l = [] then []
  else l.take 64 :: chunk64 (l.drop 64)
termination_by l.length
decreasing_by
  simp only [List.length_drop]
  have : l.length ≠ 0 := fun hz => h (List.length_eq_zero.mp hz)
  omega

def md5Words (msg : List Nat) : MD5State :=
  (chunk64 (md5Pad msg)).foldl md5Block md5Init

def md5Bytes (msg : List Nat) : List Nat :=
  let st := md5Words msg
  leBytes st.a 4 ++ leBytes st.b 4 ++ leBytes st.c 4 ++ leBytes st.d 4

def hexDigit (n : Nat) : Char :=
  if n < 10 then Char.ofNat (48 + n) else Char.ofNat (87 + n)

def byteHex (b : Nat) : List Char :=
  [hexDigit (b / 16 % 16), hexDigit (b % 16)]

/-- Lowercase hex rendering of a byte list, as Go's `fmt.Sprintf("%x", bytes)`. -/
def hexOfBytes (bs : List Nat) : String :=
  String.mk (bs.flatMap byteHex)

def md5Hex (msg : List Nat) : String :=
  hexOfBytes (md5Bytes msg)

/-! ### Go `hash.Hash` as used by Authenticate: md5.New / io.WriteString / Sum.
`io.WriteString` to an md5 hasher cannot fail (a `hash.Hash`'s Write never
returns an error), so the two error-checked writes in Authenticate are total
here; the hasher accumulates the written bytes and `Sum` digests them. -/

structure Hasher where
  buf : List Nat
deriving Repr, DecidableEq

def md5New : Hasher := ⟨[]⟩

def writeString (h : Hasher) (s : String) : Hasher := ⟨h.buf ++ strBytes s⟩

def hSum (h : Hasher) : List Nat := md5Bytes h.buf

/-! ### path.Clean and path.Join (Go `path` package).
`Clean` is embedded at the level of '/'-separated segments: the byte-level
lazybuf loop of the Go source is equivalent to splitting on '/', dropping
empty and "." segments, resolving ".." against the output stack (a ".."
at the root is dropped when rooted, kept when relative), and re-joining. -/

def splitSlash : List Char → List (List Char)
  | [] => [[]]
  | c :: cs =>
    match splitSlash cs with
    | [] => [[]]
    | s :: ss => if c = '/' then [] :: s :: ss else (c :: s) :: ss

def joinSegs : List (List Char) → List Char
  | [] => []
  | [s] => s
  | s :: rest => s ++ '/' :: joinSegs rest

def cleanSegs (rooted : Bool) : List (List Char) → List (List Char) → List (List Char)
  | acc, [] => acc.reverse
  | acc, seg :: rest =>
    if seg = [] ∨ seg = ['.'] then cleanSegs rooted acc rest
    else if seg = ['.', '.'] then
      match acc with
      | [] => if rooted then cleanSegs rooted [] rest
              else cleanSegs rooted [['.', '.']] rest
      | top :: acc' =>
        if top = ['.', '.'] then cleanSegs rooted (seg :: acc) rest
        else cleanSegs rooted acc' rest
    else cleanSegs rooted (seg :: acc) rest

def clean (p : String) : String :=
  if p = "" then (".")
  else
    let rooted := p.data.head? == some '/'
    let out := cleanSegs rooted [] (splitSlash p.data)
    if out = [] then (if rooted then ("/") else ("."))
    else if rooted then String.mk ('/' :: joinSegs out)
    else String.mk (joinSegs out)

/-- Go `path.Join`: drop empty elements, join the rest with '/', then Clean;
all-empty input yields "". -/
def pathJoin (elems : List String) : String :=
  match elems.filter (fun e => e ≠ "") with
  | [] => ""
  | ne => clean (String.mk (joinSegs (ne.map String.data)))

/-! ### The Client structure and the Request builder (client.go lines 21-95).
The base URL is carried in parsed form (`url.Parse` of a well-formed
`scheme://host[/path]` base is Go library code outside this repository), and
the `*http.Client` transport handle is an opaque id; the transport's
behavior (`http.Client.Do` plus the body read of Get) is an oracle passed to
each operation. `url.Values` built by successive `Add` calls is a sequence
of key/value pairs in insertion order; `Values.Get`/`Encode` read the values
of a key in that order. -/

def supportedApiVersion : String := "1.8.0"

structure ParsedUrl where
  scheme : String
  host : String
  path : String
deriving Repr, DecidableEq

structure Client where
  httpClient : Nat
  BaseUrl : ParsedUrl
  User : String
  ClientName : String
  salt : String
  token : String
deriving Repr, DecidableEq

def mandatedPairs (s : Client) : List (String × String) :=
  [("f", "json"), ("v", supportedApiVersion), ("c", s.ClientName),
   ("u", s.User), ("t", s.token), ("s", s.salt)]

/-- Query of the built Request: the six `q.Add` calls, then the caller's
params (a Go map; its iteration order does not matter for the claims). -/
def buildQuery (s : Client) (params : List (String × String)) : List (String × String) :=
  mandatedPairs s ++ params

/-- First value recorded for a key, which is what Go's `url.Values.Get`
returns and the first value `Encode` emits for that key. -/
def valuesGet (q : List (String × String)) (k : String) : Option String :=
  (q.find? (fun p => p.1 == k)).map (fun p => p.2)

structure RequestUrl where
  scheme : String
  host : String
  path : String
  query : List (String × String)
deriving Repr, DecidableEq

/-- The URL Request builds: base URL with path `path.Join(basePath, "/rest/",
endpoint)` and the query of `buildQuery` (client.go lines 68-88). -/
def requestUrl (s : Client) (endpoint : String) (params : List (String × String)) :
    RequestUrl :=
  { scheme := s.BaseUrl.scheme
    host := s.BaseUrl.host
    path := pathJoin [s.BaseUrl.path, "/rest/", endpoint]
    query := buildQuery s params }

def urlString (u : RequestUrl) : String :=
  u.scheme ++ "://" ++ u.host ++ u.path

/-! ### JSON values and the response envelope decoder.
`Json` models the parsed form of a response body; `Body.invalid` stands for
bytes that are not valid JSON. The envelope structs (`apiResponse` holding
`Response *subsonicResponse` under the json key "subsonic-response", the
nested object's error record with numeric code and message) are declared
outside client.go; their shape is modelled from the spec: a single top-level
object wrapping a nested object under the fixed key "subsonic-response",
the nested object carrying an optional error record (numeric code,
human-readable message) alongside arbitrary payload-shaped fields, which are
kept verbatim as the usable payload. `Client.Get` returning the nested
object through a pointer fixes that the wrapper field is a pointer, hence
nil when the wrapper key is absent or null (Go `json.Unmarshal` reports no
error then, leaving the field at its zero value; for duplicate keys the last
occurrence wins; a wrapper value of the wrong JSON type is an unmarshal
error). -/

inductive Json where
  | null
  | bool (b : Bool)
  | num (n : Int)
  | str (s : String)
  | arr (elems : List Json)
  | obj (fields : List (String × Json))
deriving Repr

inductive Body where
  | invalid
  | json (j : Json)
deriving Repr

def lookupLast (fields : List (String × Json)) (k : String) : Option Json :=
  (fields.reverse.find? (fun p => p.1 == k)).map (fun p => p.2)

structure SubsonicError where
  code : Int
  message : String
deriving Repr, DecidableEq

structure SubsonicResponse where
  error : Option SubsonicError
  fields : List (String × Json)
deriving Repr

/-- Decode of the nested object's "error" field: absent or null leaves the
error pointer nil; an object yields the record (absent code/message default
to zero values); any other JSON type is an unmarshal error. -/
def decodeErrorField : Option Json → Except Unit (Option SubsonicError)
  | none => Except.ok none
  | some Json.null => Except.ok none
  | some (Json.obj fs) =>
    match lookupLast fs ("code"), lookupLast fs ("message") with
    | some (Json.num n), some (Json.str m) => Except.ok (some ⟨n, m⟩)
    | some (Json.num n), none => Except.ok (some ⟨n, ""⟩)
    | none, some (Json.str m) => Except.ok (some ⟨0, m⟩)
    | none, none => Except.ok (some ⟨0, ""⟩)
    | _, _ => Except.error ()
  | some _ => Except.error ()

/-- Decode of the nested object (the `*subsonicResponse` value): null leaves
the pointer nil, an object decodes its error record and keeps all fields,
anything else is an unmarshal error. -/
def decodeResponse : Json → Except Unit (Option SubsonicResponse)
  | Json.null => Except.ok none
  | Json.obj fs =>
    match decodeErrorField (lookupLast fs ("error")) with
    | Except.error e => Except.error e
    | Except.ok er => Except.ok (some ⟨er, fs⟩)
  | _ => Except.error ()

/-- Go `json.Unmarshal(responseBody, &parsed)` for `parsed : apiResponse`:
invalid JSON or a non-object, non-null top level is an unmarshal error;
otherwise the wrapper field decodes from the "subsonic-response" key,
staying nil when the key is absent. -/
def unmarshalApi : Body → Except Unit (Option SubsonicResponse)
  | Body.invalid => Except.error ()
  | Body.json Json.null => Except.ok none
  | Body.json (Json.obj fields) =>
    match lookupLast fields ("subsonic-response") with
    | none => Except.ok none
    | some v => decodeResponse v
  | Body.json _ => Except.error ()

/-! ### The facade operations (client.go lines 46-128). -/

/-- Outcome of `http.Client.Do` plus the full body read: a network-level
error, or the response body content. -/
abbrev Transport := String → RequestUrl → Except String Body

/-- Client.Request: build the URL and query, dispatch via the transport,
return its outcome; no field of the receiver is assigned. -/
def Request (tr : Transport) (s : Client) (method endpoint : String)
    (params : List (String × String)) : Except String Body × Client :=
  (tr method (requestUrl s endpoint params), s)

inductive GetErr where
  | transport (msg : String)
  | parse
  | app (code : Int) (message : String)
deriving Repr, DecidableEq

/-- The pair Go's Get returns: `ok` is `(resp, nil)`, `fail` is `(nil, err)`,
and `nilPanic` marks the nil-pointer dereference of `resp.Error` when the
decoded wrapper field is nil. -/
inductive GetResult where
  | ok (resp : SubsonicResponse)
  | fail (e : GetErr)
  | nilPanic
deriving Repr

/-- Client.Get (client.go lines 98-118): GET Request, read and unmarshal the
body, then branch on `resp.Error`. -/
def Get (tr : Transport) (s : Client) (endpoint : String)
    (params : List (String × String)) : GetResult × Client :=
  match (Request tr s ("GET") endpoint params).1 with
  | Except.error e => (GetResult.fail (GetErr.transport e), s)
  | Except.ok body =>
    match unmarshalApi body with
    | Except.error _ => (GetResult.fail GetErr.parse, s)
    | Except.ok none => (GetResult.nilPanic, s)
    | Except.ok (some resp) =>
      match resp.error with
      | some er => (GetResult.fail (GetErr.app er.code er.message), s)
      | none => (GetResult.ok resp, s)

/-- Client.Ping (client.go lines 121-128): a raw Request to "ping" with nil
params; false exactly when Request fails, the error only logged. -/
def Ping (tr : Transport) (s : Client) : Bool × Client :=
  match (Request tr s ("GET") ("ping") []).1 with
  | Except.error _ => (false, s)
  | Except.ok _ => (true, s)

/-! ### Salt generation and Authenticate (client.go lines 35-64). -/

def corpus : List Char :=
  "abcdefghijklmnopqrstuvwxyzABCDEFGHIJKLMNOPQRSTUVWXYZ0123456789".data

/-- generateSalt: ten draws of `corpus[rand.Intn(len(corpus))]`; the random
source is an oracle stream, reduced mod 62 as `Intn` guarantees. -/
def generateSalt (rng : Nat → Nat) : String :=
  String.mk ((List.range 10).map (fun i => corpus.getD (rng i % 62) 'a'))

/-- The token Authenticate stores: `fmt.Sprintf("%x", h.Sum(nil))` for the
hasher fed the password then the salt. -/
def tokenOf (password salt : String) : String :=
  hexOfBytes (hSum (writeString (writeString md5New password) salt))

/-- Client.Authenticate: generate a salt, hash password then salt, store
salt and token on the receiver, then test via Ping on the updated receiver;
a false Ping yields the "Authentication failed" error. -/
def Authenticate (tr : Transport) (rng : Nat → Nat) (s : Client) (password : String) :
    Except String Unit × Client :=
  let salt := generateSalt rng
  let s' := { s with salt := salt, token := tokenOf password salt }
  if (Ping tr s').1 then (Except.ok (), s')
  else (Except.error ("Authentication failed"), s')

/-! ### Concrete fixtures: a client, transports, and response bodies. -/

def client0 : Client :=
  { httpClient := 0
    BaseUrl := ⟨"http", "host", "/music"⟩
    User := "admin"
    ClientName := "go-subsonic"
    salt := ""
    token := "" }

/-- The fields of a failed envelope's nested object, with a payload-shaped
field ("license") present alongside the error record. -/
def errFields : List (String × Json) :=
  [("status", Json.str ("failed")),
   ("license", Json.obj [("valid", Json.bool true)]),
   ("error", Json.obj [("code", Json.num 40),
                       ("message", Json.str ("Wrong username or password"))])]

def errEnvelope : Json :=
  Json.obj [("subsonic-response", Json.obj errFields)]

def respErr : SubsonicResponse :=
  ⟨some ⟨40, "Wrong username or password"⟩, errFields⟩

/-- Transport whose server replies 200 with a failed envelope (e.g. wrong
credentials): the HTTP call itself succeeds. -/
def trApp : Transport := fun _ _ => Except.ok (Body.json errEnvelope)

/-- Transport-level failure (connection refused). -/
def trRefused : Transport := fun _ _ => Except.error ("connection refused")

/-- Server replying 200 with the valid-JSON body `{}`: no wrapper key. -/
def trEmptyObj : Transport := fun _ _ => Except.ok (Body.json (Json.obj []))

/-- Server replying 200 with a body that is not valid JSON. -/
def trInvalid : Transport := fun _ _ => Except.ok Body.invalid

def rng0 : Nat → Nat := fun _ => 0

/-- C1: for every response body whose decoded envelope's nested object
contains an error record, Get returns the application error carrying that
record's code and message exactly, and no usable payload, whatever other
payload-shaped fields sit alongside the error record. -/
theorem get_app_error_exact (tr : Transport) (s : Client) (ep : String)
    (ps : List (String × String)) (b : Body) (resp : SubsonicResponse)
    (er : SubsonicError)
    (htr : tr ("GET") (requestUrl s ep ps) = Except.ok b)
    (hun : unmarshalApi b = Except.ok (some resp))
    (herr : resp.error = some er) :
    Get tr s ep ps = (GetResult.fail (GetErr.app er.code er.message), s) := by
  simp only [Get, Request, htr, hun, herr]

theorem get_app_error_exact_witness :
    (trApp ("GET") (requestUrl client0 ("getLicense") []) =
      Except.ok (Body.json errEnvelope)) ∧
    unmarshalApi (Body.json errEnvelope) = Except.ok (some respErr) ∧
    respErr.error = some ⟨40, "Wrong username or password"⟩ ∧
    Get trApp client0 ("getLicense") [] =
      (GetResult.fail (GetErr.app 40 ("Wrong username or password")), client0) :=
  ⟨rfl, rfl, rfl,
    get_app_error_exact trApp client0 ("getLicense") [] (Body.json errEnvelope)
      respErr ⟨40, "Wrong username or password"⟩ rfl rfl rfl⟩

/-- C2: on a body that is not valid JSON, Get does fail with a parse error;
but on the valid-JSON body `\x7b\x7d`, which merely lacks the
"subsonic-response" wrapper key, `json.Unmarshal` reports no error and
leaves the wrapper pointer nil, so `resp.Error` at client.go line 114
dereferences a nil pointer: Get panics instead of returning a parse
error. -/
theorem get_nil_deref_on_missing_wrapper :
    (Get trInvalid client0 ("ping") []).1 = GetResult.fail GetErr.parse ∧
    (Get trEmptyObj client0 ("ping") []).1 = GetResult.nilPanic :=
  ⟨rfl, rfl⟩

/-- C3: Authenticate's connectivity check is Ping, which is a raw Request
and never reads the response body; against a server that accepts the HTTP
call but reports an application error (code 40, wrong username or
password), Authenticate nevertheless returns success. -/
theorem authenticate_ok_despite_app_error :
    (Authenticate trApp rng0 client0 ("wrongpassword")).1 = Except.ok () ∧
    unmarshalApi (Body.json errEnvelope) = Except.ok (some respErr) ∧
    respErr.error = some ⟨40, "Wrong username or password"⟩ :=
  ⟨rfl, rfl, rfl⟩

/-- C4 counterexample: Ping returns true against a server whose reply
decodes to a server-reported application error, contradicting the claim
that every such failure yields false. -/
theorem ping_true_despite_app_error :
    (Ping trApp client0).1 = true ∧
    unmarshalApi (Body.json errEnvelope) = Except.ok (some respErr) ∧
    respErr.error = some ⟨40, "Wrong username or password"⟩ :=
  ⟨rfl, rfl, rfl⟩

/-- C4 amended: Ping returns false exactly when the underlying Request
fails at transport level; it never reads the body, so decode failures and
server-reported application errors yield true, and the underlying error is
not propagated (the receiver is returned unchanged and the result is a bare
Bool). -/
theorem ping_false_iff_transport_error (tr : Transport) (s : Client) :
    ((Ping tr s).1 = false ↔
      ∃ e, tr ("GET") (requestUrl s ("ping") []) = Except.error e) ∧
    (Ping tr s).2 = s := by
  unfold Ping Request
  cases h : tr ("GET") (requestUrl s ("ping") []) <;> simp [h]

theorem authenticate_snd (tr : Transport) (rng : Nat → Nat) (s : Client)
    (pw : String) :
    (Authenticate tr rng s pw).2 =
      { s with salt := generateSalt rng, token := tokenOf pw (generateSalt rng) } := by
  unfold Authenticate
  dsimp only
  split <;> rfl

theorem get_snd (tr : Transport) (s : Client) (ep : String)
    (ps : List (String × String)) : (Get tr s ep ps).2 = s := by
  unfold Get
  split
  · rfl
  · split
    · rfl
    · rfl
    · split <;> rfl

theorem ping_snd (tr : Transport) (s : Client) : (Ping tr s).2 = s := by
  unfold Ping
  split <;> rfl

/-- C9: when Authenticate fails because its connectivity check fails, the
receiver's salt and token have already been overwritten with the freshly
derived pair. -/
theorem authenticate_overwrites_even_on_failure (tr : Transport)
    (rng : Nat → Nat) (s : Client) (pw : String)
    (h : (Authenticate tr rng s pw).1 ≠ Except.ok ()) :
    (Authenticate tr rng s pw).2.salt = generateSalt rng ∧
    (Authenticate tr rng s pw).2.token = tokenOf pw (generateSalt rng) := by
  rw [authenticate_snd]
  exact ⟨rfl, rfl⟩

theorem authenticate_overwrites_even_on_failure_witness :
    ((Authenticate trRefused rng0 client0 ("pw")).1 ≠ Except.ok ()) ∧
    (Authenticate trRefused rng0 client0 ("pw")).2.salt = generateSalt rng0 ∧
    (Authenticate trRefused rng0 client0 ("pw")).2.token =
      tokenOf ("pw") (generateSalt rng0) := by
  have hne : (Authenticate trRefused rng0 client0 ("pw")).1 =
      Except.error ("Authentication failed") := rfl
  refine ⟨?_, ?_, ?_⟩
  · rw [hne]; exact fun h => nomatch h
  · exact (authenticate_overwrites_even_on_failure trRefused rng0 client0 ("pw")
      (by rw [hne]; exact fun h => nomatch h)).1
  · exact (authenticate_overwrites_even_on_failure trRefused rng0 client0 ("pw")
      (by rw [hne]; exact fun h => nomatch h)).2

/-- C10: Request, Get and Ping return the receiver with every field intact;
Authenticate changes only salt and token, to the freshly derived pair, and
leaves the transport handle, base URL, user and client name unchanged. -/
theorem operations_frame (tr : Transport) (rng : Nat → Nat) (s : Client)
    (m ep pw : String) (ps : List (String × String)) :
    (Request tr s m ep ps).2 = s ∧
    (Get tr s ep ps).2 = s ∧
    (Ping tr s).2 = s ∧
    (Authenticate tr rng s pw).2.httpClient = s.httpClient ∧
    (Authenticate tr rng s pw).2.BaseUrl = s.BaseUrl ∧
    (Authenticate tr rng s pw).2.User = s.User ∧
    (Authenticate tr rng s pw).2.ClientName = s.ClientName ∧
    (Authenticate tr rng s pw).2.salt = generateSalt rng ∧
    (Authenticate tr rng s pw).2.token = tokenOf pw (generateSalt rng) := by
  rw [authenticate_snd]
  exact ⟨rfl, get_snd tr s ep ps, ping_snd tr s, rfl, rfl, rfl, rfl, rfl, rfl⟩

/-- C5: every built Request's query contains the six mandated pairs, and
every caller-supplied pair whose key is none of the mandated keys appears in
the query with its value unmodified. -/
theorem query_mandated_and_caller_pairs (s : Client) (ep : String)
    (ps : List (String × String)) :
    (("f", "json") ∈ (requestUrl s ep ps).query ∧
     ("v", "1.8.0") ∈ (requestUrl s ep ps).query ∧
     ("c", s.ClientName) ∈ (requestUrl s ep ps).query ∧
     ("u", s.User) ∈ (requestUrl s ep ps).query ∧
     ("t", s.token) ∈ (requestUrl s ep ps).query ∧
     ("s", s.salt) ∈ (requestUrl s ep ps).query) ∧
    ∀ k v, (k, v) ∈ ps → k ∉ ["f", "v", "c", "u", "t", "s"] →
      (k, v) ∈ (requestUrl s ep ps).query := by
  constructor
  · refine ⟨?_, ?_, ?_, ?_, ?_, ?_⟩ <;>
      simp [requestUrl, buildQuery, mandatedPairs, supportedApiVersion]
  · intro k v hin _
    simp only [requestUrl, buildQuery, List.mem_append]
    exact Or.inr hin

theorem query_mandated_and_caller_pairs_witness :
    (("f", "json") ∈ (requestUrl client0 ("ping") [("id", "42")]).query ∧
     ("v", "1.8.0") ∈ (requestUrl client0 ("ping") [("id", "42")]).query ∧
     ("c", client0.ClientName) ∈ (requestUrl client0 ("ping") [("id", "42")]).query ∧
     ("u", client0.User) ∈ (requestUrl client0 ("ping") [("id", "42")]).query ∧
     ("t", client0.token) ∈ (requestUrl client0 ("ping") [("id", "42")]).query ∧
     ("s", client0.salt) ∈ (requestUrl client0 ("ping") [("id", "42")]).query) ∧
    ("id", "42") ∈ (requestUrl client0 ("ping") [("id", "42")]).query :=
  ⟨(query_mandated_and_caller_pairs client0 ("ping") [("id", "42")]).1,
    (query_mandated_and_caller_pairs client0 ("ping") [("id", "42")]).2
      ("id") ("42") (by simp) (by decide)⟩

/-- C6: for every caller-supplied params map, each mandated key's pair is in
the final query and is the first value recorded for that key, which is the
value `url.Values.Get` returns and the first one `Encode` emits: a caller's
pair under a mandated key is appended after it and never replaces it. -/
theorem mandated_value_takes_precedence (s : Client) (ep : String)
    (ps : List (String × String)) (k v : String)
    (hm : (k, v) ∈ mandatedPairs s) :
    valuesGet (requestUrl s ep ps).query k = some v ∧
    (k, v) ∈ (requestUrl s ep ps).query := by
  simp only [mandatedPairs, List.mem_cons, List.not_mem_nil, or_false] at hm
  rcases hm with h | h | h | h | h | h <;>
    rw [Prod.ext_iff] at h <;>
    obtain ⟨hk, hv⟩ := h <;>
    subst hk <;> subst hv <;>
    exact ⟨rfl, by simp [requestUrl, buildQuery, mandatedPairs]⟩

theorem mandated_value_takes_precedence_witness :
    valuesGet (requestUrl client0 ("ping") [("f", "evil")]).query ("f") =
      some ("json") ∧
    ("f", "json") ∈ (requestUrl client0 ("ping") [("f", "evil")]).query :=
  mandated_value_takes_precedence client0 ("ping") [("f", "evil")] ("f") ("json")
    (by simp [mandatedPairs])

/-! ### Facts about digests and tokens, for C7. -/

theorem strBytes_append (a b : String) :
    strBytes (a ++ b) = strBytes a ++ strBytes b := by
  simp [strBytes, String.data_append]

theorem tokenOf_eq (p salt : String) :
    tokenOf p salt = md5Hex (strBytes (p ++ salt)) := by
  simp [tokenOf, hSum, writeString, md5New, md5Hex, strBytes_append]

theorem md5Bytes_length (msg : List Nat) : (md5Bytes msg).length = 16 := by
  simp [md5Bytes, leBytes]

theorem leBytes_lt (n c : Nat) : ∀ b ∈ leBytes n c, b < 256 := by
  intro b hb
  simp only [leBytes, List.mem_map, List.mem_range] at hb
  obtain ⟨k, _, hk⟩ := hb
  exact hk ▸ Nat.mod_lt _ (by norm_num)

theorem md5Bytes_lt (msg : List Nat) : ∀ b ∈ md5Bytes msg, b < 256 := by
  intro b hb
  rw [show md5Bytes msg = leBytes (md5Words msg).a 4 ++ leBytes (md5Words msg).b 4 ++
      leBytes (md5Words msg).c 4 ++ leBytes (md5Words msg).d 4 from rfl] at hb
  rcases List.mem_append.mp hb with h | h
  · rcases List.mem_append.mp h with h | h
    · rcases List.mem_append.mp h with h | h
      · exact leBytes_lt _ _ b h
      · exact leBytes_lt _ _ b h
    · exact leBytes_lt _ _ b h
  · exact leBytes_lt _ _ b h

def natOfBytes : List Nat → Nat
  | [] => 0
  | b :: rest => b + 256 * natOfBytes rest

theorem natOfBytes_lt (l : List Nat) (h : ∀ b ∈ l, b < 256) :
    natOfBytes l < 256 ^ l.length := by
  induction l with
  | nil => simp [natOfBytes]
  | cons b rest ih =>
    have hb : b < 256 := h b (by simp)
    have hr := ih (fun x hx => h x (by simp [hx]))
    simp only [natOfBytes, List.length_cons, pow_succ]
    omega

theorem natOfBytes_inj (l₁ : List Nat) : ∀ l₂ : List Nat,
    l₁.length = l₂.length → (∀ b ∈ l₁, b < 256) → (∀ b ∈ l₂, b < 256) →
    natOfBytes l₁ = natOfBytes l₂ → l₁ = l₂ := by
  induction l₁ with
  | nil =>
    intro l₂ hlen _ _ _
    cases l₂ with
    | nil => rfl
    | cons b r => simp at hlen
  | cons b r ih =>
    intro l₂ hlen h₁ h₂ heq
    cases l₂ with
    | nil => simp at hlen
    | cons b₂ r₂ =>
      simp only [natOfBytes] at heq
      have hb : b < 256 := h₁ b (by simp)
      have hb₂ : b₂ < 256 := h₂ b₂ (by simp)
      have hhead : b = b₂ ∧ natOfBytes r = natOfBytes r₂ := by
        constructor <;> omega
      obtain ⟨hbb, hrr⟩ := hhead
      subst hbb
      rw [ih r₂ (by simpa using hlen) (fun x hx => h₁ x (by simp [hx]))
        (fun x hx => h₂ x (by simp [hx])) hrr]

/-- A salt the implementation can actually generate (all draws land on the
first corpus symbol). -/
def saltC : String := generateSalt rng0

/-- The MD5 digest of password+saltC, packed into a bounded number: the
token is a function of this value. -/
def digestFin (p : String) : Fin (256 ^ 16) :=
  ⟨natOfBytes (md5Bytes (strBytes (p ++ saltC))), by
    have h := natOfBytes_lt (md5Bytes (strBytes (p ++ saltC))) (md5Bytes_lt _)
    rwa [md5Bytes_length] at h⟩

/-- C7 counterexample: the token space is finite (32 hex characters encode a
128-bit digest) while passwords are unboundedly many, so by pigeonhole two
distinct passwords exist whose tokens under the same generatable salt
coincide — mismatched (password, salt) pairs with matching tokens. -/
theorem token_collision_exists :
    ∃ p₁ p₂ : String, p₁ ≠ p₂ ∧ tokenOf p₁ saltC = tokenOf p₂ saltC := by
  obtain ⟨p₁, p₂, hne, heq⟩ := Finite.exists_ne_map_eq_of_infinite digestFin
  refine ⟨p₁, p₂, hne, ?_⟩
  have hv := congrArg Fin.val heq
  simp only [digestFin] at hv
  have hd := natOfBytes_inj _ _ (by rw [md5Bytes_length, md5Bytes_length])
    (md5Bytes_lt _) (md5Bytes_lt _) hv
  rw [tokenOf_eq, tokenOf_eq]
  unfold md5Hex
  exact congrArg hexOfBytes hd

theorem length_flatMap_byteHex (bs : List Nat) :
    (bs.flatMap byteHex).length = 2 * bs.length := by
  induction bs with
  | nil => rfl
  | cons b r ih =>
    simp only [List.flatMap_cons, byteHex, List.length_append, ih,
      List.length_cons, List.length_nil]
    omega

theorem md5Hex_length (msg : List Nat) : (md5Hex msg).length = 32 := by
  rw [show (md5Hex msg).length = ((md5Bytes msg).flatMap byteHex).length from rfl,
    length_flatMap_byteHex, md5Bytes_length]

theorem md5Hex_chars (msg : List Nat) :
    ∀ ch ∈ (md5Hex msg).data, ch ∈ ("0123456789abcdef").data := by
  have hdig : ∀ n, n < 16 → hexDigit n ∈ ("0123456789abcdef").data := by decide
  intro ch hch
  simp only [md5Hex, hexOfBytes] at hch
  obtain ⟨b, _, hb⟩ := List.mem_flatMap.mp hch
  simp only [byteHex, List.mem_cons, List.not_mem_nil, or_false] at hb
  rcases hb with rfl | rfl
  · exact hdig _ (Nat.mod_lt _ (by norm_num))
  · exact hdig _ (Nat.mod_lt _ (by norm_num))

theorem generateSalt_length (rng : Nat → Nat) : (generateSalt rng).length = 10 := by
  simp [generateSalt, String.length]

theorem generateSalt_chars (rng : Nat → Nat) :
    ∀ ch ∈ (generateSalt rng).data, ch ∈ corpus := by
  have hcor : ∀ n, n < 62 → corpus.getD n 'a' ∈ corpus := by decide
  intro ch hch
  rw [show (generateSalt rng).data =
    (List.range 10).map (fun i => corpus.getD (rng i % 62) 'a') from rfl] at hch
  obtain ⟨i, _, rfl⟩ := List.mem_map.mp hch
  exact hcor _ (Nat.mod_lt _ (by norm_num))

/-- C7 amended: Authenticate stores a salt of length 10 drawn from the
62-symbol alphanumeric corpus and a token equal to the lowercase
hexadecimal digest (32 hex characters, i.e. 128 bits) of the MD5 hash of
the plaintext password concatenated with that salt, password first; the
absolute no-collision clause is dropped, as matching tokens are exactly
matching MD5 digests and MD5 is not injective over all passwords. -/
theorem authenticate_salt_token_shape (tr : Transport) (rng : Nat → Nat)
    (s : Client) (pw : String) :
    (Authenticate tr rng s pw).2.salt = generateSalt rng ∧
    (generateSalt rng).length = 10 ∧
    (∀ ch ∈ (generateSalt rng).data, ch ∈ corpus) ∧
    (Authenticate tr rng s pw).2.token =
      md5Hex (strBytes (pw ++ generateSalt rng)) ∧
    (Authenticate tr rng s pw).2.token.length = 32 ∧
    (∀ ch ∈ (Authenticate tr rng s pw).2.token.data,
      ch ∈ ("0123456789abcdef").data) := by
  rw [authenticate_snd]
  refine ⟨rfl, generateSalt_length rng, generateSalt_chars rng, ?_, ?_, ?_⟩
  · exact tokenOf_eq pw (generateSalt rng)
  · show (tokenOf pw (generateSalt rng)).length = 32
    rw [tokenOf_eq]
    exact md5Hex_length _
  · show ∀ ch ∈ (tokenOf pw (generateSalt rng)).data, ch ∈ ("0123456789abcdef").data
    rw [tokenOf_eq]
    exact md5Hex_chars _

/-! ### Facts about splitSlash, joinSegs, cleanSegs and clean, for C8. -/

theorem mk_cons_ne_empty (c : Char) (l : List Char) : String.mk (c :: l) ≠ "" :=
  fun hh => List.cons_ne_nil c l (show c :: l = [] from congrArg String.data hh)

theorem data_ne_of_ne (b t : String) (h : b ≠ t) : b.data ≠ t.data :=
  fun hd => h (String.ext hd)

theorem splitSlash_ne_nil (l : List Char) : splitSlash l ≠ [] := by
  cases l with
  | nil => exact fun hh => nomatch hh
  | cons c cs =>
    simp only [splitSlash]
    cases h : splitSlash cs with
    | nil => exact fun hh => nomatch hh
    | cons s ss =>
      by_cases hc : c = '/' <;> simp [hc]

theorem splitSlash_noslash (s : List Char) (h : '/' ∉ s) : splitSlash s = [s] := by
  induction s with
  | nil => rfl
  | cons c cs ih =>
    have hc : ¬(c = '/') := fun hh => h (hh ▸ List.mem_cons_self c cs)
    have hcs : '/' ∉ cs := fun hh => h (List.mem_cons_of_mem c hh)
    simp only [splitSlash, ih hcs]
    simp [hc]

theorem splitSlash_slash_cons (t : List Char) :
    splitSlash ('/' :: t) = [] :: splitSlash t := by
  simp only [splitSlash]
  cases h : splitSlash t with
  | nil => exact absurd h (splitSlash_ne_nil t)
  | cons s ss => simp

theorem splitSlash_append (a : List Char) : ∀ t, '/' ∉ a →
    splitSlash (a ++ '/' :: t) = a :: splitSlash t := by
  induction a with
  | nil =>
    intro t _
    exact splitSlash_slash_cons t
  | cons c cs ih =>
    intro t h
    have hc : ¬(c = '/') := fun hh => h (hh ▸ List.mem_cons_self c cs)
    have hcs : '/' ∉ cs := fun hh => h (List.mem_cons_of_mem c hh)
    rw [List.cons_append]
    simp only [splitSlash, ih t hcs]
    simp [hc]

theorem joinSegs_cons_append (ys : List (List Char)) (hy : ys ≠ []) :
    ∀ (xs : List (List Char)) (x : List Char),
    joinSegs ((x :: xs) ++ ys) = joinSegs (x :: xs) ++ '/' :: joinSegs ys := by
  intro xs
  induction xs with
  | nil =>
    intro x
    cases ys with
    | nil => exact absurd rfl hy
    | cons y ys' => rfl
  | cons x₂ xs' ih =>
    intro x
    rw [show ((x :: x₂ :: xs') ++ ys) = x :: ((x₂ :: xs') ++ ys) from rfl]
    rw [show joinSegs (x :: ((x₂ :: xs') ++ ys)) =
      x ++ '/' :: joinSegs ((x₂ :: xs') ++ ys) from rfl]
    rw [ih x₂]
    rw [show joinSegs (x :: x₂ :: xs') = x ++ '/' :: joinSegs (x₂ :: xs') from rfl]
    simp [List.append_assoc]

theorem splitSlash_join_append (rest : List (List Char)) : ∀ (s t : List Char),
    (∀ x ∈ s :: rest, '/' ∉ x) →
    splitSlash (joinSegs (s :: rest) ++ '/' :: t) = s :: (rest ++ splitSlash t) := by
  induction rest with
  | nil =>
    intro s t h
    exact splitSlash_append s t (h s (List.mem_cons_self s []))
  | cons s₂ rest' ih =>
    intro s t h
    rw [show joinSegs (s :: s₂ :: rest') = s ++ '/' :: joinSegs (s₂ :: rest') from rfl]
    rw [List.append_assoc]
    rw [show ('/' :: joinSegs (s₂ :: rest')) ++ '/' :: t =
      '/' :: (joinSegs (s₂ :: rest') ++ '/' :: t) from rfl]
    rw [splitSlash_append s _ (h s (List.mem_cons_self _ _))]
    rw [ih s₂ t (fun x hx => h x (List.mem_cons_of_mem s hx))]
    rfl

theorem cleanSegs_simple (rooted : Bool) (segs : List (List Char)) :
    ∀ acc, (∀ seg ∈ segs, seg ≠ ['.', '.']) →
    cleanSegs rooted acc segs =
      acc.reverse ++ segs.filter (fun seg => ¬(seg = [] ∨ seg = ['.'])) := by
  induction segs with
  | nil =>
    intro acc _
    simp [cleanSegs]
  | cons seg rest ih =>
    intro acc h
    by_cases hd : seg = [] ∨ seg = ['.']
    · rw [show cleanSegs rooted acc (seg :: rest) = cleanSegs rooted acc rest from by
        simp only [cleanSegs]; rw [if_pos hd]]
      rw [ih acc (fun x hx => h x (List.mem_cons_of_mem _ hx))]
      rw [List.filter_cons_of_neg (by simp; tauto)]
    · have hdd : seg ≠ ['.', '.'] := h seg (List.mem_cons_self _ _)
      rw [show cleanSegs rooted acc (seg :: rest) =
        cleanSegs rooted (seg :: acc) rest from by
          simp only [cleanSegs]; rw [if_neg hd, if_neg hdd]]
      rw [ih (seg :: acc) (fun x hx => h x (List.mem_cons_of_mem _ hx))]
      rw [List.filter_cons_of_pos (by simp; tauto)]
      simp

theorem clean_cons_slash (L : List Char) (out : List (List Char))
    (hcl : cleanSegs true [] (splitSlash ('/' :: L)) = out) (hout : out ≠ []) :
    clean (String.mk ('/' :: L)) = String.mk ('/' :: joinSegs out) := by
  unfold clean
  rw [if_neg (mk_cons_ne_empty '/' L)]
  dsimp only
  rw [show (((String.mk ('/' :: L)).data.head?) == some '/') = true from rfl]
  rw [show splitSlash (String.mk ('/' :: L)).data = splitSlash ('/' :: L) from rfl]
  rw [hcl]
  rw [if_neg hout]
  simp

/-- A plain path segment: non-empty, no separator, not one of the dot
segments `path.Clean` rewrites. -/
def simpleSeg (e : String) : Prop :=
  e ≠ "" ∧ '/' ∉ e.data ∧ e ≠ "." ∧ e ≠ ".."

/-- C8: for a base URL whose path is rooted and made of plain segments and a
plain endpoint name, the URL Request builds keeps the base scheme and host
and has path equal to the base path joined with "/rest/" and the endpoint:
existing base path segments are preserved. -/
theorem request_path_joins_base (c : Client) (ep : String)
    (ps : List (String × String)) (b0 : String) (brest : List String)
    (hpath : c.BaseUrl.path =
      String.mk ('/' :: joinSegs ((b0 :: brest).map String.data)))
    (hb : ∀ b ∈ b0 :: brest, simpleSeg b) (he : simpleSeg ep) :
    (requestUrl c ep ps).path = c.BaseUrl.path ++ "/rest/" ++ ep ∧
    (requestUrl c ep ps).scheme = c.BaseUrl.scheme ∧
    (requestUrl c ep ps).host = c.BaseUrl.host := by
  refine ⟨?_, rfl, rfl⟩
  show pathJoin [c.BaseUrl.path, "/rest/", ep] = c.BaseUrl.path ++ "/rest/" ++ ep
  rw [hpath]
  simp only [List.map_cons]
  have hb0 := hb b0 (List.mem_cons_self _ _)
  have hep_ne : ep ≠ "" := he.1
  have hslash_all : ∀ x ∈ b0.data :: brest.map String.data, '/' ∉ x := by
    intro x hx
    rcases List.mem_cons.mp hx with rfl | hx
    · exact hb0.2.1
    · obtain ⟨b, hbm, rfl⟩ := List.mem_map.mp hx
      exact (hb b (List.mem_cons_of_mem _ hbm)).2.1
  have hfil : List.filter (fun e => e ≠ "")
      [String.mk ('/' :: joinSegs (b0.data :: brest.map String.data)), "/rest/", ep] =
      [String.mk ('/' :: joinSegs (b0.data :: brest.map String.data)), "/rest/", ep] := by
    rw [List.filter_cons_of_pos (by simpa using mk_cons_ne_empty '/' _)]
    rw [List.filter_cons_of_pos (by decide)]
    rw [List.filter_cons_of_pos (by simpa using hep_ne)]
    rfl
  unfold pathJoin
  rw [hfil]
  show clean (String.mk ('/' :: (joinSegs (b0.data :: brest.map String.data) ++
      '/' :: ('/' :: 'r' :: 'e' :: 's' :: 't' :: '/' :: '/' :: ep.data)))) =
    String.mk ('/' :: joinSegs (b0.data :: brest.map String.data)) ++ "/rest/" ++ ep
  have hsp : splitSlash ('/' :: (joinSegs (b0.data :: brest.map String.data) ++
      '/' :: ('/' :: 'r' :: 'e' :: 's' :: 't' :: '/' :: '/' :: ep.data))) =
      [] :: b0.data :: (brest.map String.data ++
        ([] :: ['r', 'e', 's', 't'] :: [] :: [ep.data])) := by
    rw [splitSlash_slash_cons]
    rw [splitSlash_join_append (brest.map String.data) b0.data _ hslash_all]
    rw [splitSlash_slash_cons]
    rw [show ('r' :: 'e' :: 's' :: 't' :: '/' :: '/' :: ep.data) =
      ['r', 'e', 's', 't'] ++ '/' :: ('/' :: ep.data) from rfl]
    rw [splitSlash_append ['r', 'e', 's', 't'] _ (by decide)]
    rw [splitSlash_slash_cons]
    rw [splitSlash_noslash ep.data he.2.1]
  have hdd : ∀ seg ∈ [] :: b0.data :: (brest.map String.data ++
      ([] :: ['r', 'e', 's', 't'] :: [] :: [ep.data])), seg ≠ ['.', '.'] := by
    intro seg hseg
    rcases List.mem_cons.mp hseg with rfl | hseg
    · exact fun hh => nomatch hh
    rcases List.mem_cons.mp hseg with rfl | hseg
    · exact data_ne_of_ne b0 (".." : String) hb0.2.2.2
    rcases List.mem_append.mp hseg with hseg | hseg
    · obtain ⟨b, hbm, rfl⟩ := List.mem_map.mp hseg
      exact data_ne_of_ne b (".." : String) (hb b (List.mem_cons_of_mem _ hbm)).2.2.2
    · simp only [List.mem_cons, List.not_mem_nil, or_false] at hseg
      rcases hseg with rfl | rfl | rfl | rfl
      · exact fun hh => nomatch hh
      · decide
      · exact fun hh => nomatch hh
      · exact data_ne_of_ne ep (".." : String) he.2.2.2
  have hkeep : ∀ b ∈ b0 :: brest, ¬(b.data = [] ∨ b.data = ['.']) := by
    intro b hbm hor
    rcases hor with hh | hh
    · exact data_ne_of_ne b ("" : String) (hb b hbm).1 hh
    · exact data_ne_of_ne b ("." : String) (hb b hbm).2.2.1 hh
  have hcl : cleanSegs true [] (splitSlash ('/' ::
      (joinSegs (b0.data :: brest.map String.data) ++
        '/' :: ('/' :: 'r' :: 'e' :: 's' :: 't' :: '/' :: '/' :: ep.data)))) =
      b0.data :: (brest.map String.data ++ [['r', 'e', 's', 't'], ep.data]) := by
    rw [hsp]
    rw [cleanSegs_simple true _ [] hdd]
    rw [List.filter_cons_of_neg (by simp)]
    rw [List.filter_cons_of_pos (by simpa using hkeep b0 (List.mem_cons_self _ _))]
    rw [List.filter_append]
    rw [List.filter_eq_self.mpr (by
      intro x hx
      obtain ⟨b, hbm, rfl⟩ := List.mem_map.mp hx
      simpa using hkeep b (List.mem_cons_of_mem _ hbm))]
    rw [List.filter_cons_of_neg (by simp)]
    rw [List.filter_cons_of_pos (by decide)]
    rw [List.filter_cons_of_neg (by simp)]
    rw [List.filter_cons_of_pos (by
      simp only [decide_not]
      simp
      exact ⟨fun hh => data_ne_of_ne ep ("" : String) he.1 hh,
        fun hh => data_ne_of_ne ep ("." : String) he.2.2.1 hh⟩)]
    rfl
  rw [clean_cons_slash _ _ hcl (List.cons_ne_nil _ _)]
  apply String.ext
  rw [show (b0.data :: (brest.map String.data ++ [['r', 'e', 's', 't'], ep.data])) =
    (b0.data :: brest.map String.data) ++ [['r', 'e', 's', 't'], ep.data] from rfl]
  rw [joinSegs_cons_append [['r', 'e', 's', 't'], ep.data] (by simp)
    (brest.map String.data) b0.data]
  rw [String.data_append, String.data_append]
  show '/' :: (joinSegs (b0.data :: brest.map String.data) ++
      '/' :: ('r' :: 'e' :: 's' :: 't' :: '/' :: ep.data)) =
    ('/' :: joinSegs (b0.data :: brest.map String.data)) ++
      ('/' :: 'r' :: 'e' :: 's' :: 't' :: '/' :: []) ++ ep.data
  simp

theorem request_path_joins_base_witness :
    ((requestUrl client0 ("ping") []).path =
        client0.BaseUrl.path ++ "/rest/" ++ "ping" ∧
      (requestUrl client0 ("ping") []).scheme = client0.BaseUrl.scheme ∧
      (requestUrl client0 ("ping") []).host = client0.BaseUrl.host) ∧
    urlString (requestUrl client0 ("ping") []) = "http://host/music/rest/ping" :=
  ⟨request_path_joins_base client0 ("ping") [] ("music") []
      (by decide)
      (by
        intro b hbm
        simp only [List.mem_cons, List.not_mem_nil, or_false] at hbm
        subst hbm
        exact ⟨by decide, by decide, by decide, by decide⟩)
      ⟨by decide, by decide, by decide, by decide⟩,
    by decide⟩

end Subsonic
